import Mathlib

/-!
Verification of the set command family of `src/server/set_family.cc`.

The development shallowly embeds the shard-local set operations (`OpAdd`, `OpRem`,
`OpPop`, `OpDiff`), the cross-shard intersection combiner (`InterResultVec`), the
two-hop `SMOVE` coordinator (`Mover`) and the reply shaping of `SISMEMBER`.

A set value is modelled as a tagged union over the two encodings: an IntSet is a
sorted duplicate-free list of signed integers, a FlatSet is a duplicate-free list of
byte strings in iteration order.  Collaborators that live outside this file's source
(the redis intset, the string parser `string2ll`, `FlatSet`, `db_slice.Find`) are
modelled from the specification and are marked as such.
-/

set_option maxHeartbeats 1000000

namespace DflySet

/-! Canonical decimal strings and canonical integer parsing. -/

/-- Modelled from the spec: the decimal digit character of a value taken modulo 10. -/
def digitChar (d : Nat) : Char := Char.ofNat (48 + d % 10)

/-- Modelled from the spec: big-endian decimal digits of a natural number.
The first argument is recursion fuel; it is sufficient whenever it bounds the number. -/
def n2sAux : Nat → Nat → List Char
  | 0, _ => []
  | _ + 1, 0 => []
  | fuel + 1, n + 1 => n2sAux fuel ((n + 1) / 10) ++ [digitChar ((n + 1) % 10)]

/-- Modelled from the spec: the canonical decimal string of a natural number
(the store prints members with absl FastIntToBuffer, which emits exactly this form). -/
def n2s (n : Nat) : String := if n = 0 then "0" else String.mk (n2sAux n n)

/-- Modelled from the spec: the canonical decimal string of a signed integer. -/
def i2s (v : Int) : String :=
  if v < 0 then String.mk ('-' :: (n2s v.natAbs).data) else n2s v.natAbs

/-- Value of one decimal digit character, none for a non-digit. -/
def digVal (c : Char) : Option Nat :=
  if 48 ≤ c.toNat ∧ c.toNat ≤ 57 then some (c.toNat - 48) else none

/-- One step of left-to-right decimal accumulation. -/
def accDig (a : Option Nat) (c : Char) : Option Nat :=
  match a, digVal c with
  | some b, some d => some (b * 10 + d)
  | _, _ => none

/-- Decimal value of a digit string, none if any character is not a digit. -/
def digitsVal (cs : List Char) : Option Nat := cs.foldl accDig (some 0)

/-- Loose integer parse: an optional minus sign followed by decimal digits. -/
def parseIntLoose (s : String) : Option Int :=
  match s.data with
  | [] => none
  | c :: rest =>
    if c = '-' then (digitsVal rest).map (fun m => -(m : Int))
    else (digitsVal (c :: rest)).map (fun m => (m : Int))

/-- Modelled from the spec: `string2ll` (redis `util.c`, not under `src/`).  Per spec
section 4.1 the store's parser accepts exactly the canonical decimal representation of
a signed 64-bit integer and rejects every other byte string. -/
def string2ll (s : String) : Option Int :=
  match parseIntLoose s with
  | none => none
  | some v => if i2s v = s ∧ -(2 ^ 63) ≤ v ∧ v ≤ 2 ^ 63 - 1 then some v else none

/-- A value representable inside an intset (signed 64-bit range). -/
def inRange (v : Int) : Prop := -(2 ^ 63) ≤ v ∧ v ≤ 2 ^ 63 - 1

instance (v : Int) : Decidable (inRange v) := instDecidableAnd

/-! Status and result types of the shard-local operations. -/

inductive OpStatus where
  | OK
  | KEY_NOTFOUND
  | WRONG_TYPE
  | SKIPPED
  | INVALID_INT
  deriving DecidableEq

inductive OpRes (α : Type) where
  | ok (val : α)
  | err (st : OpStatus)
  deriving DecidableEq

/-- The status carried by an OpResult; OK when it holds a value. -/
def OpRes.status {α : Type} : OpRes α → OpStatus
  | .ok _ => .OK
  | .err s => s

/-- OpResult::value_or. -/
def OpRes.valueOr {α : Type} : OpRes α → α → α
  | .ok a, _ => a
  | .err _, d => d

/-! The set value: tagged union over the two encodings. -/

/-- A set value: IntSet (sorted distinct integers) or FlatSet (strings in iteration order). -/
inductive SetVal where
  | intset (l : List Int)
  | flat (fs : List String)
  deriving DecidableEq

/-- A dictionary value: either a set or a value of some other type. -/
inductive Value where
  | set (sv : SetVal)
  | other
  deriving DecidableEq

/-- Cardinality of a set value. -/
def SetVal.size : SetVal → Nat
  | .intset l => l.length
  | .flat fs => fs.length

/-- From FillSet in set_family.cc: members in iteration order, integers printed in
canonical decimal. -/
def SetVal.members : SetVal → List String
  | .intset l => l.map i2s
  | .flat fs => fs

/-- The members of a set value as a finite set of strings. -/
def SetVal.strSet : SetVal → Finset String
  | .intset l => (l.map i2s).toFinset
  | .flat fs => fs.toFinset

/-- Modelled from the spec (section 4.3): `CompactObj::IsMember`; for IntSet the query
is parsed as an integer and searched, a non-integer query is never a member. -/
def SetVal.isMember (sv : SetVal) (v : String) : Bool :=
  match sv with
  | .intset l =>
    match string2ll v with
    | some x => decide (x ∈ l)
    | none => false
  | .flat fs => decide (v ∈ fs)

/-- Modelled from the spec: `db_slice.Find` with required object type set; a missing
key yields KEY_NOTFOUND and a key holding a non-set value yields WRONG_TYPE. -/
def findSet : Option Value → OpRes SetVal
  | none => .err .KEY_NOTFOUND
  | some .other => .err .WRONG_TYPE
  | some (.set sv) => .ok sv

/-- The decimal-string image of an intset, as a finite set. -/
def i2sSet (l : List Int) : Finset String := (l.map i2s).toFinset

/-! IntSet primitives (redis `intset.c`, modelled from spec section 4.1). -/

/-- Modelled from the spec: `intsetAdd` returns the container unchanged when the value
is present, otherwise inserts it at its sorted position; the flag reports insertion. -/
def intsetAdd : List Int → Int → List Int × Bool
  | [], v => ([v], true)
  | x :: xs, v =>
    if v < x then (v :: x :: xs, true)
    else if v = x then (x :: xs, false)
    else
      let p := intsetAdd xs v
      (x :: p.1, p.2)

/-- Modelled from the spec: `intsetRemove` removes the value when present; the flag
reports removal. -/
def intsetRemove (l : List Int) (v : Int) : List Int × Bool :=
  if v ∈ l then (l.erase v, true) else (l, false)

/-! FlatSet primitives (`core/flat_set.h`, modelled from spec section 4.2). -/

/-- Modelled from the spec: `FlatSet::Add` returns whether the member was inserted;
iteration order is stable, new members are appended at the end of it here. -/
def fsAdd (fs : List String) (v : String) : List String × Bool :=
  if v ∈ fs then (fs, false) else (fs ++ [v], true)

/-- Modelled from the spec: `FlatSet::Remove` returns whether a member was removed. -/
def fsRemove (fs : List String) (v : String) : List String × Bool :=
  if v ∈ fs then (fs.erase v, true) else (fs, false)

/-! Shard-local operations from set_family.cc. -/

/-- From IntsetAddSafe in set_family.cc: parse the value; on parse failure report
failure without touching the container; otherwise insert, and after a real insertion
succeed only while the cardinality stays within max_intset_entries clamped to 65536.
Returns (container, success, added). -/
def IntsetAddSafe (maxEntries : Nat) (val : String) (l : List Int) :
    List Int × Bool × Bool :=
  match string2ll val with
  | none => (l, false, false)
  | some llval =>
    let p := intsetAdd l llval
    if p.2 then
      let me := if maxEntries ≥ 65536 then 65536 else maxEntries
      (p.1, decide (p.1.length ≤ me), true)
    else (p.1, true, false)

/-- From ConvertTo in set_family.cc: every integer member of the intset is added to the
flat set as its canonical decimal string, in iteration order. -/
def ConvertTo (l : List Int) : List String := l.map i2s

/-- From the IntSet insertion loop of OpAdd: run IntsetAddSafe on each value, counting
added members, and stop at the first failure.  Returns (container, count, success). -/
def addIntLoop (maxE : Nat) : List String → List Int → Nat → List Int × Nat × Bool
  | [], l, res => (l, res, true)
  | v :: rest, l, res =>
    let q := IntsetAddSafe maxE v l
    let res2 := res + (if q.2.2 then 1 else 0)
    if q.2.1 then addIntLoop maxE rest q.1 res2
    else (q.1, res2, false)

/-- From the FlatSet insertion loop of OpAdd: add each value, counting insertions. -/
def addFlatLoop : List String → List String → Nat → List String × Nat
  | [], fs, res => (fs, res)
  | v :: rest, fs, res =>
    let q := fsAdd fs v
    addFlatLoop rest q.1 (res + (if q.2 then 1 else 0))

/-- From the insertion phase of OpAdd in set_family.cc: the IntSet loop runs first and
on failure the container is converted to a FlatSet and the FlatSet loop then runs over
the whole argument list, continuing the same counter. -/
def runAdd (maxE : Nat) (co : SetVal) (vals : List String) : OpRes Nat × Option Value :=
  match co with
  | .intset l =>
    let q := addIntLoop maxE vals l 0
    if q.2.2 then (.ok q.2.1, some (.set (.intset q.1)))
    else
      let fl := addFlatLoop vals (ConvertTo q.1) q.2.1
      (.ok fl.2, some (.set (.flat fl.1)))
  | .flat fs =>
    let fl := addFlatLoop vals fs 0
    (.ok fl.2, some (.set (.flat fl.1)))

/-- From OpAdd in set_family.cc, acting on the slot of one key.  With overwrite and an
empty value list the key is deleted.  A new or overwritten slot gets a fresh encoding
chosen by parsing every value; only a pre-existing non-overwritten slot is type
checked.  Returns the operation result and the new slot contents. -/
def OpAdd (maxE : Nat) (slot : Option Value) (vals : List String) (overwrite : Bool) :
    OpRes Nat × Option Value :=
  if overwrite && vals.isEmpty then (.ok 0, none)
  else if slot.isNone || overwrite then
    let co : SetVal :=
      if vals.all (fun v => (string2ll v).isSome) then .intset [] else .flat []
    runAdd maxE co vals
  else
    match slot with
    | some (.set sv) => runAdd maxE sv vals
    | _ => (.err .WRONG_TYPE, slot)

/-- From the IntSet branch of RemoveSet in set_family.cc: values that do not parse as
integers are skipped; the rest are removed, counting removals. -/
def remIntLoop : List String → List Int → Nat → List Int × Nat
  | [], l, removed => (l, removed)
  | v :: rest, l, removed =>
    match string2ll v with
    | none => remIntLoop rest l removed
    | some x =>
      let p := intsetRemove l x
      remIntLoop rest p.1 (removed + (if p.2 then 1 else 0))

/-- From the FlatSet branch of RemoveSet in set_family.cc. -/
def remFlatLoop : List String → List String → Nat → List String × Nat
  | [], fs, removed => (fs, removed)
  | v :: rest, fs, removed =>
    let p := fsRemove fs v
    remFlatLoop rest p.1 (removed + (if p.2 then 1 else 0))

/-- From RemoveSet in set_family.cc: returns (set, removed count, is-empty flag). -/
def RemoveSet (vals : List String) (sv : SetVal) : SetVal × Nat × Bool :=
  match sv with
  | .intset l =>
    let p := remIntLoop vals l 0
    (.intset p.1, p.2, p.1.isEmpty)
  | .flat fs =>
    let p := remFlatLoop vals fs 0
    (.flat p.1, p.2, p.1.isEmpty)

/-- From OpRem in set_family.cc: find the set, remove the values, delete the key when
the set becomes empty, and return the number of members removed. -/
def OpRem (slot : Option Value) (vals : List String) : OpRes Nat × Option Value :=
  match findSet slot with
  | .err s => (.err s, slot)
  | .ok sv =>
    let r := RemoveSet vals sv
    if r.2.2 then (.ok r.2.1, none) else (.ok r.2.1, some (.set r.1))

/-- From SetFamily::OpPop in set_family.cc: a zero count pops nothing; a count at least
the cardinality returns every member and deletes the key; a partial pop returns the
last count members of an IntSet (trimming its tail) or the first count members of a
FlatSet in iteration order. -/
def OpPop (slot : Option Value) (count : Nat) : OpRes (List String) × Option Value :=
  match findSet slot with
  | .err s => (.err s, slot)
  | .ok sv =>
    if count = 0 then (.ok [], slot)
    else if sv.size ≤ count then (.ok sv.members, none)
    else
      match sv with
      | .intset l =>
        (.ok ((l.drop (l.length - count)).map i2s),
         some (.set (.intset (l.take (l.length - count)))))
      | .flat fs => (.ok (fs.take count), some (.set (.flat (fs.drop count))))

/-- From SetFamily::OpDiff in set_family.cc: the first routed key is the source; its
lookup status is surfaced.  The member collection and the subtraction loop are
compiled out behind an if-0 block, so the local string set stays empty and an existing
source produces an empty result. -/
def OpDiff (lookup : String → Option Value) (keys : List String) : OpRes (List String) :=
  match keys with
  | [] => .err .KEY_NOTFOUND
  | k :: _ =>
    match findSet (lookup k) with
    | .err s => .err s
    | .ok _ => .ok []

/-! Cross-shard intersection combiner. -/

/-- From InterResultVec: increment the count of every table entry whose key equals the
candidate (flat_hash_map find-and-increment). -/
def bumpCounts (counts : List (String × Nat)) (s : String) : List (String × Nat) :=
  counts.map (fun p => if p.1 = s then (p.1, p.2 + 1) else p)

/-- From InterResultVec: emplace a first-shard candidate with count one, keeping the
existing entry when the key is already present. -/
def addFirst (counts : List (String × Nat)) (s : String) : List (String × Nat) :=
  if counts.any (fun p => p.1 == s) then counts else counts ++ [(s, 1)]

/-- From InterResultVec in set_family.cc: scan the per-shard results in shard order,
skipping SKIPPED, returning an empty array at KEY_NOTFOUND and propagating any other
error; candidates of the first contributing shard are counted across the later ones
and those reaching the required count are emitted. -/
def interCore (req : Nat) :
    List (OpRes (List String)) → Bool → List (String × Nat) → OpRes (List String)
  | [], _, counts => .ok ((counts.filter (fun p => p.2 == req)).map Prod.fst)
  | r :: rest, first, counts =>
    if r.status = .SKIPPED then interCore req rest first counts
    else if r.status = .KEY_NOTFOUND then .ok []
    else
      match r with
      | .err s => .err s
      | .ok lst =>
        if first then interCore req rest false (lst.foldl addFirst counts)
        else interCore req rest false (lst.foldl bumpCounts counts)

/-- From InterResultVec in set_family.cc. -/
def InterResultVec (resultVec : List (OpRes (List String))) (requiredShardCnt : Nat) :
    OpRes (List String) :=
  interCore requiredShardCnt resultVec true []

/-- The OK contributions of a per-shard result vector, in shard order. -/
def contribLists (vec : List (OpRes (List String))) : List (List String) :=
  vec.filterMap (fun r => match r with | .ok l => some l | .err _ => none)

/-! The SMOVE coordinator. -/

/-- The action chosen by Mover::Commit for the mutate hop. -/
inductive MutAction where
  | noop
  | move
  deriving DecidableEq

/-- Whether the chosen mutate hop is the no-op callback. -/
def MutAction.isNoop : MutAction → Bool
  | .noop => true
  | .move => false

/-- From Mover::Commit in set_family.cc: WRONG_TYPE on either slot yields WRONG_TYPE;
a source that does not hold the member yields 0; otherwise 1, with a real mutate hop
exactly when source and destination differ.  The hop is a no-op in every other case. -/
def moverCommit (found0 found1 : OpRes Bool) (srcEqDest : Bool) :
    OpRes Nat × MutAction :=
  if found0.status = .WRONG_TYPE ∨ found1.status = .WRONG_TYPE then
    (.err .WRONG_TYPE, .noop)
  else if found0.valueOr false = false then (.ok 0, .noop)
  else (.ok 1, if srcEqDest then .noop else .move)

/-- A shard-local call issued by the mutate hop. -/
inductive ShardCall where
  | rem (key member : String)
  | add (key member : String) (overwrite : Bool)
  deriving DecidableEq

/-- From Mover::OpMutate in set_family.cc: on each shard, the source key gets
OpRem(key, member) and the destination key gets OpAdd(key, member, overwrite=false). -/
def opMutateCalls (largs : List String) (src member : String) : List ShardCall :=
  largs.map (fun k => if k = src then .rem k member else .add k member false)

/-- From Mover::OpFind in set_family.cc: the DCHECK asserts that the shard's routed
argument slice holds fewer than two keys. -/
def opFindSizeCheck (largs : List String) : Bool := decide (largs.length < 2)

/-- From the recording loop of Mover::OpFind in set_family.cc: the source slot records
whether the member is in the source set, every other slot records only the lookup
status of the destination. -/
def opFindRecord (src member : String) (lookup : String → Option Value)
    (largs : List String) : OpRes Bool × OpRes Bool :=
  largs.foldl
    (fun found k =>
      let res := findSet (lookup k)
      if k = src then
        match res with
        | .ok sv => (.ok (sv.isMember member), found.2)
        | .err s => (.err s, found.2)
      else (found.1, .err res.status))
    (.err .OK, .err .OK)

/-! Transaction hop traces of the multi-hop commands. -/

/-- One Execute call of a transaction: whether it concludes the transaction and
whether its callback is the no-op. -/
structure Hop where
  concluding : Bool
  isNoOp : Bool
  deriving DecidableEq

/-- From SetFamily::SDiffStore: a non-concluding diff hop, then either the concluding
no-op (when the combiner failed) or the concluding store hop. -/
def sDiffStoreHops (combineFailed : Bool) : List Hop :=
  [⟨false, false⟩, ⟨true, combineFailed⟩]

/-- From SetFamily::SInterStore: same two-hop shape as SDiffStore. -/
def sInterStoreHops (combineFailed : Bool) : List Hop :=
  [⟨false, false⟩, ⟨true, combineFailed⟩]

/-- From SetFamily::SUnionStore: same two-hop shape as SDiffStore. -/
def sUnionStoreHops (combineFailed : Bool) : List Hop :=
  [⟨false, false⟩, ⟨true, combineFailed⟩]

/-- From SetFamily::SMove: the non-concluding find hop, then the concluding hop chosen
by Mover::Commit, which is the no-op unless a real move was decided. -/
def sMoveHops (found0 found1 : OpRes Bool) (srcEqDest : Bool) : List Hop :=
  [⟨false, false⟩, ⟨true, (moverCommit found0 found1 srcEqDest).2.isNoop⟩]

/-! SISMEMBER reply shaping. -/

/-- A client-visible reply. -/
inductive Reply where
  | long (n : Int)
  | err (msg : String)
  | null
  | bulk (s : String)
  deriving DecidableEq

/-- From the callback of SetFamily::SIsMember: OK when the member is present,
KEY_NOTFOUND when it is not, otherwise the lookup status. -/
def sIsMemberStatus (slot : Option Value) (val : String) : OpStatus :=
  match findSet slot with
  | .ok sv => if sv.isMember val then .OK else .KEY_NOTFOUND
  | .err s => s

/-- From the reply switch of SetFamily::SIsMember: OK sends the integer 1 and every
other status, including WRONG_TYPE, sends the integer 0. -/
def sIsMemberReply (st : OpStatus) : Reply :=
  match st with
  | .OK => .long 1
  | _ => .long 0

/-- The set value stored in a slot, if any. -/
def slotSet : Option Value → Option SetVal
  | some (.set sv) => some sv
  | some .other => none
  | none => none

/-- Concrete key space for the SDIFF scenario of the spec: key a holds the integer set
containing 1, 2, 3 and key b holds the integer set containing 2, 3, 4. -/
def lkDiff : String → Option Value := fun k =>
  if k = "a" then some (.set (.intset [1, 2, 3]))
  else if k = "b" then some (.set (.intset [2, 3, 4]))
  else none

/-- Concrete key space for the co-located SMOVE find hop: the source holds a flat set
containing the member, the destination key is absent. -/
def lkMove : String → Option Value := fun k =>
  if k = "a" then some (.set (.flat ["m"])) else none

/-! Lemmas about canonical decimal strings. -/

theorem digitChar_toNat (d : Nat) : (digitChar d).toNat = 48 + d % 10 := by
  have h : d % 10 < 10 := Nat.mod_lt d (by decide)
  unfold digitChar
  revert h
  generalize d % 10 = k
  intro h
  interval_cases k <;> decide

theorem digVal_digitChar (d : Nat) : digVal (digitChar d) = some (d % 10) := by
  have h2 : d % 10 < 10 := Nat.mod_lt d (by decide)
  unfold digVal
  rw [digitChar_toNat]
  rw [if_pos (by omega : 48 ≤ 48 + d % 10 ∧ 48 + d % 10 ≤ 57)]
  congr 1
  omega

theorem accDig_digit (a d : Nat) : accDig (some a) (digitChar d) = some (a * 10 + d % 10) := by
  unfold accDig
  rw [digVal_digitChar]

theorem digitsVal_append_one (cs : List Char) (c : Char) :
    digitsVal (cs ++ [c]) = accDig (digitsVal cs) c := by
  unfold digitsVal
  rw [List.foldl_append]
  rfl

theorem n2sAux_zero (fuel : Nat) : n2sAux fuel 0 = [] := by
  cases fuel <;> rfl

theorem digitsVal_n2sAux (n : Nat) : ∀ fuel, 0 < n → n ≤ fuel →
    digitsVal (n2sAux fuel n) = some n := by
  induction n using Nat.strong_induction_on with
  | _ n ih =>
    intro fuel hpos hle
    obtain ⟨f, rfl⟩ : ∃ f, fuel = f + 1 := ⟨fuel - 1, by omega⟩
    obtain ⟨m, rfl⟩ : ∃ m, n = m + 1 := ⟨n - 1, by omega⟩
    show digitsVal (n2sAux f ((m + 1) / 10) ++ [digitChar ((m + 1) % 10)]) = _
    rw [digitsVal_append_one]
    rcases Nat.eq_zero_or_pos ((m + 1) / 10) with hq | hq
    · rw [hq, n2sAux_zero]
      show accDig (some 0) _ = _
      rw [accDig_digit]
      congr 1
      omega
    · have hlt : (m + 1) / 10 < m + 1 := Nat.div_lt_self hpos (by decide)
      rw [ih ((m + 1) / 10) hlt f hq (by omega)]
      rw [accDig_digit]
      congr 1
      omega

theorem n2sAux_all_digits (fuel : Nat) : ∀ n c, c ∈ n2sAux fuel n →
    48 ≤ c.toNat ∧ c.toNat ≤ 57 := by
  induction fuel with
  | zero => intro n c hc; simp [n2sAux] at hc
  | succ fuel ih =>
    intro n c hc
    match n with
    | 0 => simp [n2sAux] at hc
    | n + 1 =>
      simp only [n2sAux, List.mem_append, List.mem_singleton] at hc
      rcases hc with hc | hc
      · exact ih _ _ hc
      · subst hc
        rw [digitChar_toNat]
        have : (n + 1) % 10 % 10 < 10 := Nat.mod_lt _ (by decide)
        omega

theorem n2sAux_ne_nil (n fuel : Nat) (hpos : 0 < n) (hle : n ≤ fuel) :
    n2sAux fuel n ≠ [] := by
  intro h
  have := digitsVal_n2sAux n fuel hpos hle
  rw [h] at this
  simp [digitsVal] at this
  omega

theorem parseIntLoose_eq (s : String) (c : Char) (cs : List Char)
    (hd : s.data = c :: cs) :
    parseIntLoose s =
      if c = '-' then (digitsVal cs).map (fun m => -(m : Int))
      else (digitsVal (c :: cs)).map (fun m => (m : Int)) := by
  unfold parseIntLoose
  rw [hd]

theorem digitsVal_n2s (n : Nat) : digitsVal (n2s n).data = some n := by
  rcases Nat.eq_zero_or_pos n with h0 | hpos
  · subst h0; decide
  · unfold n2s
    rw [if_neg (by omega)]
    show digitsVal (n2sAux n n) = some n
    exact digitsVal_n2sAux n n hpos le_rfl

theorem parseIntLoose_n2s (n : Nat) : parseIntLoose (n2s n) = some (n : Int) := by
  rcases Nat.eq_zero_or_pos n with h0 | hpos
  · subst h0; decide
  · have hne : n2sAux n n ≠ [] := n2sAux_ne_nil n n hpos le_rfl
    rcases hcs : n2sAux n n with _ | ⟨c, cs⟩
    · exact absurd hcs hne
    · have hdig : 48 ≤ c.toNat ∧ c.toNat ≤ 57 :=
        n2sAux_all_digits n n c (by rw [hcs]; exact List.mem_cons_self c cs)
      have hd : (n2s n).data = c :: cs := by
        unfold n2s
        rw [if_neg (by omega)]
        exact hcs
      rw [parseIntLoose_eq (n2s n) c cs hd]
      rw [if_neg (by intro h; subst h; revert hdig; decide)]
      have h1 : digitsVal (c :: cs) = some n := by
        rw [← hd]
        exact digitsVal_n2s n
      rw [h1]
      rfl

theorem parseIntLoose_i2s (v : Int) : parseIntLoose (i2s v) = some v := by
  unfold i2s
  by_cases hv : v < 0
  · rw [if_pos hv]
    have hd : (String.mk ('-' :: (n2s v.natAbs).data)).data =
        '-' :: (n2s v.natAbs).data := rfl
    rw [parseIntLoose_eq _ _ _ hd]
    rw [if_pos rfl]
    rw [digitsVal_n2s v.natAbs]
    show some (-(v.natAbs : Int)) = some v
    congr 1
    omega
  · rw [if_neg hv]
    rw [parseIntLoose_n2s v.natAbs]
    congr 1
    omega

theorem i2s_inj : Function.Injective i2s := by
  intro a b h
  have ha := parseIntLoose_i2s a
  rw [h, parseIntLoose_i2s b] at ha
  exact (Option.some.inj ha).symm

theorem string2ll_some_eq (s : String) (w : Int) (hp : parseIntLoose s = some w) :
    string2ll s =
      if i2s w = s ∧ -(2 ^ 63) ≤ w ∧ w ≤ 2 ^ 63 - 1 then some w else none := by
  unfold string2ll
  rw [hp]

theorem string2ll_none_eq (s : String) (hp : parseIntLoose s = none) :
    string2ll s = none := by
  unfold string2ll
  rw [hp]

theorem string2ll_canon (s : String) (v : Int) (h : string2ll s = some v) :
    i2s v = s ∧ inRange v := by
  rcases hp : parseIntLoose s with _ | w
  · rw [string2ll_none_eq s hp] at h
    exact absurd h (by simp)
  · rw [string2ll_some_eq s w hp] at h
    by_cases hc : i2s w = s ∧ -(2 ^ 63) ≤ w ∧ w ≤ 2 ^ 63 - 1
    · rw [if_pos hc] at h
      have hw : w = v := Option.some.inj h
      subst hw
      exact ⟨hc.1, hc.2.1, hc.2.2⟩
    · rw [if_neg hc] at h
      exact absurd h (by simp)

theorem string2ll_i2s (v : Int) (h : inRange v) : string2ll (i2s v) = some v := by
  rw [string2ll_some_eq (i2s v) v (parseIntLoose_i2s v)]
  rw [if_pos ⟨rfl, h.1, h.2⟩]

/-! Lemmas about the intset primitives. -/

theorem intsetAdd_mem (l : List Int) (v : Int) (hs : l.Sorted (· < ·)) (hv : v ∈ l) :
    intsetAdd l v = (l, false) := by
  induction l with
  | nil => cases hv
  | cons x xs ih =>
    rw [List.sorted_cons] at hs
    rcases List.mem_cons.mp hv with h | h
    · subst h
      unfold intsetAdd
      rw [if_neg (lt_irrefl v), if_pos rfl]
    · have hxv : x < v := hs.1 v h
      unfold intsetAdd
      rw [if_neg (by omega), if_neg (by omega)]
      rw [ih hs.2 h]

theorem intsetAdd_not_mem (l : List Int) (v : Int) (hs : l.Sorted (· < ·)) (hv : v ∉ l) :
    (intsetAdd l v).2 = true ∧ (intsetAdd l v).1.length = l.length + 1 ∧
    List.Sorted (· < ·) (intsetAdd l v).1 ∧
    (∀ x, x ∈ (intsetAdd l v).1 ↔ x ∈ l ∨ x = v) := by
  induction l with
  | nil =>
    refine ⟨rfl, rfl, List.sorted_singleton v, ?_⟩
    intro x
    simp [intsetAdd]
  | cons x xs ih =>
    rw [List.sorted_cons] at hs
    have hvx : v ≠ x := fun h => hv (h ▸ List.mem_cons_self x xs)
    by_cases hlt : v < x
    · have hred : intsetAdd (x :: xs) v = (v :: x :: xs, true) := by
        conv_lhs => unfold intsetAdd
        rw [if_pos hlt]
      rw [hred]
      refine ⟨rfl, rfl, ?_, ?_⟩
      · rw [List.sorted_cons]
        refine ⟨?_, List.sorted_cons.mpr hs⟩
        intro b hb
        rcases List.mem_cons.mp hb with h | h
        · omega
        · have := hs.1 b h
          omega
      · intro y
        simp only [List.mem_cons]
        tauto
    · have hred : intsetAdd (x :: xs) v =
          (x :: (intsetAdd xs v).1, (intsetAdd xs v).2) := by
        conv_lhs => unfold intsetAdd
        rw [if_neg hlt, if_neg hvx]
      obtain ⟨h1, h2, h3, h4⟩ := ih hs.2 (fun h => hv (List.mem_cons_of_mem x h))
      rw [hred]
      refine ⟨h1, by simp [h2], ?_, ?_⟩
      · rw [List.sorted_cons]
        refine ⟨?_, h3⟩
        intro b hb
        rcases (h4 b).mp hb with h | h
        · exact hs.1 b h
        · omega
      · intro y
        simp only [List.mem_cons, h4]
        tauto

theorem IntsetAddSafe_none (maxE : Nat) (v : String) (l : List Int)
    (h : string2ll v = none) : IntsetAddSafe maxE v l = (l, false, false) := by
  unfold IntsetAddSafe
  rw [h]

theorem IntsetAddSafe_some_eq (maxE : Nat) (v : String) (l : List Int) (x : Int)
    (h : string2ll v = some x) :
    IntsetAddSafe maxE v l =
      if (intsetAdd l x).2 then
        ((intsetAdd l x).1,
         decide ((intsetAdd l x).1.length ≤ if maxE ≥ 65536 then 65536 else maxE),
         true)
      else ((intsetAdd l x).1, true, false) := by
  unfold IntsetAddSafe
  rw [h]

theorem IntsetAddSafe_dup (maxE : Nat) (v : String) (l : List Int) (x : Int)
    (h : string2ll v = some x) (hs : l.Sorted (· < ·)) (hm : x ∈ l) :
    IntsetAddSafe maxE v l = (l, true, false) := by
  rw [IntsetAddSafe_some_eq maxE v l x h, intsetAdd_mem l x hs hm]
  rfl

theorem IntsetAddSafe_new (maxE : Nat) (v : String) (l : List Int) (x : Int)
    (h : string2ll v = some x) (hs : l.Sorted (· < ·)) (hm : x ∉ l) :
    IntsetAddSafe maxE v l =
      ((intsetAdd l x).1,
       decide ((intsetAdd l x).1.length ≤ if maxE ≥ 65536 then 65536 else maxE),
       true) := by
  rw [IntsetAddSafe_some_eq maxE v l x h]
  rw [(intsetAdd_not_mem l x hs hm).1]
  rfl

theorem addIntLoop_cons (maxE : Nat) (v : String) (rest : List String) (l : List Int)
    (res : Nat) :
    addIntLoop maxE (v :: rest) l res =
      if (IntsetAddSafe maxE v l).2.1 then
        addIntLoop maxE rest (IntsetAddSafe maxE v l).1
          (res + if (IntsetAddSafe maxE v l).2.2 then 1 else 0)
      else
        ((IntsetAddSafe maxE v l).1,
         res + (if (IntsetAddSafe maxE v l).2.2 then 1 else 0), false) := rfl

theorem sorted_nodup (l : List Int) (hs : l.Sorted (· < ·)) : l.Nodup :=
  List.Pairwise.imp (fun h => ne_of_lt h) hs

theorem i2sSet_card (l : List Int) (hn : l.Nodup) : (i2sSet l).card = l.length := by
  unfold i2sSet
  rw [List.toFinset_card_of_nodup (List.Nodup.map i2s_inj hn), List.length_map]

theorem mem_i2sSet (l : List Int) (s : String) : s ∈ i2sSet l ↔ ∃ x ∈ l, i2s x = s := by
  unfold i2sSet
  simp [List.mem_toFinset, List.mem_map]

theorem card_union_diff (A B : Finset String) :
    (A ∪ B).card = A.card + (B \ A).card := by
  rw [← Finset.union_sdiff_self_eq_union]
  exact Finset.card_union_of_disjoint Finset.disjoint_sdiff

theorem addIntLoop_spec (maxE : Nat) :
    ∀ (vals : List String) (l : List Int) (res : Nat),
    l.Sorted (· < ·) → (∀ x ∈ l, inRange x) →
    List.Sorted (· < ·) (addIntLoop maxE vals l res).1 ∧
    (∀ x ∈ (addIntLoop maxE vals l res).1, inRange x) ∧
    (∀ x ∈ l, x ∈ (addIntLoop maxE vals l res).1) ∧
    (∀ x ∈ (addIntLoop maxE vals l res).1, x ∈ l ∨ i2s x ∈ vals) ∧
    (addIntLoop maxE vals l res).2.1 + l.length =
      res + (addIntLoop maxE vals l res).1.length ∧
    ((addIntLoop maxE vals l res).2.2 = true →
      ∀ v ∈ vals, ∃ x, string2ll v = some x ∧ x ∈ (addIntLoop maxE vals l res).1) := by
  intro vals
  induction vals with
  | nil =>
    intro l res hs hr
    exact ⟨hs, hr, fun x hx => hx, fun x hx => Or.inl hx, rfl,
      fun _ v hv => absurd hv (List.not_mem_nil v)⟩
  | cons v rest ih =>
    intro l res hs hr
    rcases hp : string2ll v with _ | x
    · have hred : addIntLoop maxE (v :: rest) l res = (l, res, false) := by
        rw [addIntLoop_cons, IntsetAddSafe_none maxE v l hp]
        rfl
      rw [hred]
      refine ⟨hs, hr, fun x hx => hx, fun x hx => Or.inl hx, rfl, ?_⟩
      intro hcontra
      exact absurd hcontra (by simp)
    · have hcanon := string2ll_canon v x hp
      by_cases hm : x ∈ l
      · have hred : addIntLoop maxE (v :: rest) l res = addIntLoop maxE rest l res := by
          rw [addIntLoop_cons, IntsetAddSafe_dup maxE v l x hp hs hm]
          rfl
        rw [hred]
        obtain ⟨s1, s2, s3, s4, s5, s6⟩ := ih l res hs hr
        refine ⟨s1, s2, s3, ?_, s5, ?_⟩
        · intro y hy
          rcases s4 y hy with h | h
          · exact Or.inl h
          · exact Or.inr (List.mem_cons_of_mem v h)
        · intro hsucc w hw
          rcases List.mem_cons.mp hw with h | h
          · subst h
            exact ⟨x, hp, s3 x hm⟩
          · exact s6 hsucc w h
      · obtain ⟨a1, a2, a3, a4⟩ := intsetAdd_not_mem l x hs hm
        have hr' : ∀ y ∈ (intsetAdd l x).1, inRange y := by
          intro y hy
          rcases (a4 y).mp hy with h | h
          · exact hr y h
          · subst h
            exact hcanon.2
        by_cases hcap : (intsetAdd l x).1.length ≤ if maxE ≥ 65536 then 65536 else maxE
        · have hred : addIntLoop maxE (v :: rest) l res =
              addIntLoop maxE rest (intsetAdd l x).1 (res + 1) := by
            rw [addIntLoop_cons, IntsetAddSafe_new maxE v l x hp hs hm]
            rw [decide_eq_true hcap]
            rfl
          rw [hred]
          obtain ⟨s1, s2, s3, s4, s5, s6⟩ := ih (intsetAdd l x).1 (res + 1) a3 hr'
          refine ⟨s1, s2, ?_, ?_, ?_, ?_⟩
          · intro y hy
            exact s3 y ((a4 y).mpr (Or.inl hy))
          · intro y hy
            rcases s4 y hy with h | h
            · rcases (a4 y).mp h with h2 | h2
              · exact Or.inl h2
              · subst h2
                rw [hcanon.1]
                exact Or.inr (List.mem_cons_self v rest)
            · exact Or.inr (List.mem_cons_of_mem v h)
          · omega
          · intro hsucc w hw
            rcases List.mem_cons.mp hw with h | h
            · subst h
              exact ⟨x, hp, s3 x ((a4 x).mpr (Or.inr rfl))⟩
            · exact s6 hsucc w h
        · have hred : addIntLoop maxE (v :: rest) l res =
              ((intsetAdd l x).1, res + 1, false) := by
            rw [addIntLoop_cons, IntsetAddSafe_new maxE v l x hp hs hm]
            rw [decide_eq_false hcap]
            rfl
          rw [hred]
          refine ⟨a3, hr', ?_, ?_,
            by show res + 1 + l.length = res + (intsetAdd l x).1.length; omega, ?_⟩
          · intro y hy
            exact (a4 y).mpr (Or.inl hy)
          · intro y hy
            rcases (a4 y).mp hy with h | h
            · exact Or.inl h
            · subst h
              rw [hcanon.1]
              exact Or.inr (List.mem_cons_self v rest)
          · intro hcontra
            exact absurd hcontra (by simp)

theorem addFlatLoop_cons (v : String) (rest fs : List String) (res : Nat) :
    addFlatLoop (v :: rest) fs res =
      addFlatLoop rest (fsAdd fs v).1 (res + if (fsAdd fs v).2 then 1 else 0) := rfl

theorem fsAdd_mem (fs : List String) (v : String) (hm : v ∈ fs) :
    fsAdd fs v = (fs, false) := by
  unfold fsAdd
  rw [if_pos hm]

theorem fsAdd_not_mem (fs : List String) (v : String) (hm : v ∉ fs) :
    fsAdd fs v = (fs ++ [v], true) := by
  unfold fsAdd
  rw [if_neg hm]

theorem addFlatLoop_spec : ∀ (vals fs : List String) (res : Nat), fs.Nodup →
    (addFlatLoop vals fs res).1.Nodup ∧
    (addFlatLoop vals fs res).1.toFinset = fs.toFinset ∪ vals.toFinset ∧
    (addFlatLoop vals fs res).2 + fs.length = res + (addFlatLoop vals fs res).1.length := by
  intro vals
  induction vals with
  | nil =>
    intro fs res hn
    refine ⟨hn, ?_, rfl⟩
    show fs.toFinset = fs.toFinset ∪ ([] : List String).toFinset
    simp
  | cons v rest ih =>
    intro fs res hn
    by_cases hm : v ∈ fs
    · have hred : addFlatLoop (v :: rest) fs res = addFlatLoop rest fs res := by
        rw [addFlatLoop_cons, fsAdd_mem fs v hm]
        rfl
      rw [hred]
      obtain ⟨s1, s2, s3⟩ := ih fs res hn
      refine ⟨s1, ?_, s3⟩
      rw [s2, List.toFinset_cons]
      ext s
      simp only [Finset.mem_union, Finset.mem_insert, List.mem_toFinset]
      constructor
      · rintro (h | h)
        · exact Or.inl h
        · exact Or.inr (Or.inr h)
      · rintro (h | h | h)
        · exact Or.inl h
        · exact Or.inl (by rw [h]; exact hm)
        · exact Or.inr h
    · have hred : addFlatLoop (v :: rest) fs res = addFlatLoop rest (fs ++ [v]) (res + 1) := by
        rw [addFlatLoop_cons, fsAdd_not_mem fs v hm]
        rfl
      rw [hred]
      have hn' : (fs ++ [v]).Nodup := by
        simp [List.nodup_append, hn, hm]
      obtain ⟨s1, s2, s3⟩ := ih (fs ++ [v]) (res + 1) hn'
      refine ⟨s1, ?_, ?_⟩
      · rw [s2, List.toFinset_append, List.toFinset_cons]
        ext s
        simp only [Finset.mem_union, Finset.mem_insert, List.mem_toFinset,
          List.toFinset_cons, List.toFinset_nil, insert_emptyc_eq, Finset.mem_singleton]
        tauto
      · rw [List.length_append, List.length_singleton] at s3
        omega

theorem runAdd_intset_eq (maxE : Nat) (l : List Int) (vals : List String) :
    runAdd maxE (.intset l) vals =
      if (addIntLoop maxE vals l 0).2.2 then
        (.ok (addIntLoop maxE vals l 0).2.1,
         some (.set (.intset (addIntLoop maxE vals l 0).1)))
      else
        (.ok (addFlatLoop vals (ConvertTo (addIntLoop maxE vals l 0).1)
                (addIntLoop maxE vals l 0).2.1).2,
         some (.set (.flat (addFlatLoop vals (ConvertTo (addIntLoop maxE vals l 0).1)
                (addIntLoop maxE vals l 0).2.1).1))) := rfl

theorem runAdd_intset_spec (maxE : Nat) (l : List Int) (vals : List String)
    (hs : l.Sorted (· < ·)) (hr : ∀ x ∈ l, inRange x) :
    (runAdd maxE (.intset l) vals).1 = .ok ((vals.toFinset \ i2sSet l).card) ∧
    (slotSet (runAdd maxE (.intset l) vals).2).map SetVal.strSet =
      some (i2sSet l ∪ vals.toFinset) := by
  obtain ⟨s1, s2, s3, s4, s5, s6⟩ := addIntLoop_spec maxE vals l 0 hs hr
  rw [runAdd_intset_eq]
  set q := addIntLoop maxE vals l 0 with hq
  by_cases hsucc : q.2.2 = true
  · rw [if_pos hsucc]
    have hset : i2sSet q.1 = i2sSet l ∪ vals.toFinset := by
      ext s
      rw [mem_i2sSet, Finset.mem_union, mem_i2sSet]
      constructor
      · rintro ⟨x, hx, rfl⟩
        rcases s4 x hx with h | h
        · exact Or.inl ⟨x, h, rfl⟩
        · exact Or.inr (List.mem_toFinset.mpr h)
      · rintro (⟨x, hx, rfl⟩ | h)
        · exact ⟨x, s3 x hx, rfl⟩
        · obtain ⟨x, hpx, hxin⟩ := s6 hsucc s (List.mem_toFinset.mp h)
          exact ⟨x, hxin, (string2ll_canon s x hpx).1⟩
    constructor
    · show OpRes.ok q.2.1 = OpRes.ok ((vals.toFinset \ i2sSet l).card)
      congr 1
      have c1 : (i2sSet q.1).card = q.1.length := i2sSet_card _ (sorted_nodup _ s1)
      have c2 : (i2sSet l).card = l.length := i2sSet_card _ (sorted_nodup _ hs)
      have c3 := card_union_diff (i2sSet l) vals.toFinset
      rw [hset] at c1
      omega
    · show some (i2sSet q.1) = some (i2sSet l ∪ vals.toFinset)
      rw [hset]
  · rw [if_neg hsucc]
    have hn0 : (ConvertTo q.1).Nodup := List.Nodup.map i2s_inj (sorted_nodup _ s1)
    obtain ⟨f1, f2, f3⟩ := addFlatLoop_spec vals (ConvertTo q.1) q.2.1 hn0
    have hfs0 : (ConvertTo q.1).toFinset = i2sSet q.1 := rfl
    have hset : i2sSet q.1 ∪ vals.toFinset = i2sSet l ∪ vals.toFinset := by
      ext s
      simp only [Finset.mem_union, mem_i2sSet, List.mem_toFinset]
      constructor
      · rintro (⟨x, hx, rfl⟩ | h)
        · rcases s4 x hx with h | h
          · exact Or.inl ⟨x, h, rfl⟩
          · exact Or.inr h
        · exact Or.inr h
      · rintro (⟨x, hx, rfl⟩ | h)
        · exact Or.inl ⟨x, s3 x hx, rfl⟩
        · exact Or.inr h
    constructor
    · show OpRes.ok (addFlatLoop vals (ConvertTo q.1) q.2.1).2 =
        OpRes.ok ((vals.toFinset \ i2sSet l).card)
      congr 1
      have c1 : (addFlatLoop vals (ConvertTo q.1) q.2.1).1.toFinset.card =
          (addFlatLoop vals (ConvertTo q.1) q.2.1).1.length :=
        List.toFinset_card_of_nodup f1
      have c2 : (i2sSet l).card = l.length := i2sSet_card _ (sorted_nodup _ hs)
      have c3 := card_union_diff (i2sSet l) vals.toFinset
      have c5 : (ConvertTo q.1).length = q.1.length := List.length_map _ _
      rw [f2, hfs0, hset] at c1
      omega
    · show some (addFlatLoop vals (ConvertTo q.1) q.2.1).1.toFinset =
        some (i2sSet l ∪ vals.toFinset)
      rw [f2, hfs0, hset]

theorem runAdd_flat_spec (maxE : Nat) (fs : List String) (vals : List String)
    (hn : fs.Nodup) :
    (runAdd maxE (.flat fs) vals).1 = .ok ((vals.toFinset \ fs.toFinset).card) ∧
    (slotSet (runAdd maxE (.flat fs) vals).2).map SetVal.strSet =
      some (fs.toFinset ∪ vals.toFinset) := by
  obtain ⟨f1, f2, f3⟩ := addFlatLoop_spec vals fs 0 hn
  constructor
  · show OpRes.ok (addFlatLoop vals fs 0).2 = _
    congr 1
    have c1 : (addFlatLoop vals fs 0).1.toFinset.card = (addFlatLoop vals fs 0).1.length :=
      List.toFinset_card_of_nodup f1
    have c2 : fs.toFinset.card = fs.length := List.toFinset_card_of_nodup hn
    have c3 := card_union_diff fs.toFinset vals.toFinset
    rw [f2] at c1
    omega
  · show some (addFlatLoop vals fs 0).1.toFinset = _
    rw [f2]

/-! Reductions of OpAdd to its insertion phase, and the claims about OpAdd. -/

theorem OpAdd_existing_set (maxE : Nat) (sv : SetVal) (vals : List String) :
    OpAdd maxE (some (.set sv)) vals false = runAdd maxE sv vals := rfl

theorem OpAdd_absent (maxE : Nat) (vals : List String) :
    OpAdd maxE none vals false =
      runAdd maxE
        (if vals.all (fun v => (string2ll v).isSome) then .intset [] else .flat [])
        vals := rfl

theorem OpAdd_overwrite_cons (maxE : Nat) (slot : Option Value) (v : String)
    (vs : List String) :
    OpAdd maxE slot (v :: vs) true =
      runAdd maxE
        (if (v :: vs).all (fun w => (string2ll w).isSome) then .intset [] else .flat [])
        (v :: vs) := by
  unfold OpAdd
  rw [Bool.or_true]
  rfl

theorem OpAdd_overwrite_nil (maxE : Nat) (slot : Option Value) :
    OpAdd maxE slot [] true = (.ok 0, none) := rfl

theorem runAdd_fst_ok (maxE : Nat) (co : SetVal) (vals : List String) :
    ∃ n, (runAdd maxE co vals).1 = .ok n := by
  cases co with
  | intset l =>
    rw [runAdd_intset_eq]
    by_cases h : (addIntLoop maxE vals l 0).2.2 = true
    · rw [if_pos h]
      exact ⟨_, rfl⟩
    · rw [if_neg h]
      exact ⟨_, rfl⟩
  | flat fs => exact ⟨_, rfl⟩

/-- C1: on an OpAdd(key, vals, overwrite=false) whose set is IntSet-encoded (or, when
the key is absent and every value parses, becomes IntSet-encoded), every value goes
through the IntsetAddSafe path with mid-loop conversion to FlatSet on a non-integer
value or a cardinality overflow; all integer members already inserted are retained
across the conversion, the remaining values are inserted as strings, the final member
set is the union of the old members with vals, and the returned count is exactly the
number of elements of vals that were not already members — duplicates count zero and
no element is double counted across the conversion. -/
theorem c1_opadd_intset_count :
    (∀ (maxE : Nat) (l : List Int) (vals : List String),
      l.Sorted (· < ·) → (∀ x ∈ l, inRange x) →
      (OpAdd maxE (some (.set (.intset l))) vals false).1 =
        .ok ((vals.toFinset \ i2sSet l).card) ∧
      (slotSet (OpAdd maxE (some (.set (.intset l))) vals false).2).map SetVal.strSet =
        some (i2sSet l ∪ vals.toFinset)) ∧
    (∀ (maxE : Nat) (vals : List String),
      (∀ v ∈ vals, (string2ll v).isSome) →
      (OpAdd maxE none vals false).1 = .ok vals.toFinset.card ∧
      (slotSet (OpAdd maxE none vals false).2).map SetVal.strSet =
        some vals.toFinset) := by
  constructor
  · intro maxE l vals hs hr
    rw [OpAdd_existing_set]
    exact runAdd_intset_spec maxE l vals hs hr
  · intro maxE vals hall
    rw [OpAdd_absent]
    rw [if_pos (List.all_eq_true.mpr (fun v hv => hall v hv))]
    have h := runAdd_intset_spec maxE [] vals List.sorted_nil
      (fun x hx => absurd hx (List.not_mem_nil x))
    rw [show i2sSet [] = (∅ : Finset String) from rfl, Finset.sdiff_empty,
      Finset.empty_union] at h
    exact h

theorem c1_witness :
    ((OpAdd 4 (some (.set (.intset [1, 2, 3, 4]))) ["5"] false).1 =
        .ok (((["5"] : List String).toFinset \ i2sSet [1, 2, 3, 4]).card) ∧
      (slotSet (OpAdd 4 (some (.set (.intset [1, 2, 3, 4]))) ["5"] false).2).map
          SetVal.strSet =
        some (i2sSet [1, 2, 3, 4] ∪ (["5"] : List String).toFinset)) ∧
    ((OpAdd 4 none ["7", "7"] false).1 = .ok (["7", "7"] : List String).toFinset.card ∧
      (slotSet (OpAdd 4 none ["7", "7"] false).2).map SetVal.strSet =
        some (["7", "7"] : List String).toFinset) :=
  ⟨c1_opadd_intset_count.1 4 [1, 2, 3, 4] ["5"] (by decide) (by decide),
   c1_opadd_intset_count.2 4 ["7", "7"] (by decide)⟩

/-- C10: OpAdd with overwrite=true never returns WRONG_TYPE whatever the existing
value's type: with non-empty vals the slot ends up holding a freshly initialized set
whose members are exactly the distinct elements of vals, and with empty vals the key
is deleted and 0 is returned, so STORE destination keys of the wrong type are
silently overwritten rather than rejected. -/
theorem c10_opadd_overwrite :
    (∀ (maxE : Nat) (slot : Option Value) (vals : List String),
      (OpAdd maxE slot vals true).1 ≠ .err .WRONG_TYPE) ∧
    (∀ (maxE : Nat) (slot : Option Value) (v : String) (vs : List String),
      (slotSet (OpAdd maxE slot (v :: vs) true).2).map SetVal.strSet =
        some (v :: vs).toFinset) ∧
    (∀ (maxE : Nat) (slot : Option Value), OpAdd maxE slot [] true = (.ok 0, none)) := by
  refine ⟨?_, ?_, ?_⟩
  · intro maxE slot vals
    cases vals with
    | nil =>
      rw [OpAdd_overwrite_nil]
      intro h
      exact OpRes.noConfusion h
    | cons v vs =>
      rw [OpAdd_overwrite_cons]
      obtain ⟨n, hn⟩ := runAdd_fst_ok maxE
        (if (v :: vs).all (fun w => (string2ll w).isSome) then .intset [] else .flat [])
        (v :: vs)
      rw [hn]
      intro h
      exact OpRes.noConfusion h
  · intro maxE slot v vs
    rw [OpAdd_overwrite_cons]
    by_cases hall : (v :: vs).all (fun w => (string2ll w).isSome) = true
    · rw [if_pos hall]
      have h := (runAdd_intset_spec maxE [] (v :: vs) List.sorted_nil
        (fun x hx => absurd hx (List.not_mem_nil x))).2
      rw [show i2sSet [] = (∅ : Finset String) from rfl, Finset.empty_union] at h
      exact h
    · rw [if_neg hall]
      have h := (runAdd_flat_spec maxE [] (v :: vs) List.nodup_nil).2
      rw [show ([] : List String).toFinset = (∅ : Finset String) from rfl,
        Finset.empty_union] at h
      exact h
  · intro maxE slot
    exact OpAdd_overwrite_nil maxE slot

theorem c10_witness :
    (OpAdd 0 (some Value.other) ["1"] true).1 ≠ .err .WRONG_TYPE ∧
    (slotSet (OpAdd 0 (some Value.other) ("1" :: []) true).2).map SetVal.strSet =
      some ("1" :: []).toFinset ∧
    OpAdd 0 (some Value.other) [] true = (.ok 0, none) :=
  ⟨c10_opadd_overwrite.1 0 (some Value.other) ["1"],
   c10_opadd_overwrite.2.1 0 (some Value.other) "1" [],
   c10_opadd_overwrite.2.2 0 (some Value.other)⟩

/-! Claims about the SMOVE coordinator. -/

/-- C2: Mover::Commit returns WRONG_TYPE with a no-op concluding hop when either slot
recorded WRONG_TYPE; returns 0 with a no-op hop when the source does not contain the
member; otherwise returns 1, the mutate hop being a no-op exactly when src = dest, and
the real mutate hop performs OpRem on the source key's shard and OpAdd with
overwrite=false on the destination key's shard. -/
theorem c2_mover_commit :
    (∀ (f0 f1 : OpRes Bool) (sd : Bool),
      f0.status = .WRONG_TYPE ∨ f1.status = .WRONG_TYPE →
      moverCommit f0 f1 sd = (.err .WRONG_TYPE, .noop)) ∧
    (∀ (f0 f1 : OpRes Bool) (sd : Bool),
      f0.status ≠ .WRONG_TYPE → f1.status ≠ .WRONG_TYPE → f0.valueOr false = false →
      moverCommit f0 f1 sd = (.ok 0, .noop)) ∧
    (∀ (f0 f1 : OpRes Bool) (sd : Bool),
      f0.status ≠ .WRONG_TYPE → f1.status ≠ .WRONG_TYPE → f0.valueOr false = true →
      moverCommit f0 f1 sd = (.ok 1, if sd then .noop else .move)) ∧
    (∀ (src dest member : String), src ≠ dest →
      opMutateCalls [src] src member = [.rem src member] ∧
      opMutateCalls [dest] src member = [.add dest member false]) := by
  refine ⟨?_, ?_, ?_, ?_⟩
  · intro f0 f1 sd h
    unfold moverCommit
    rw [if_pos h]
  · intro f0 f1 sd h0 h1 hv
    unfold moverCommit
    rw [if_neg (by tauto), if_pos hv]
  · intro f0 f1 sd h0 h1 hv
    unfold moverCommit
    rw [if_neg (by tauto), if_neg (by rw [hv]; decide)]
  · intro src dest member hne
    constructor
    · show [if src = src then ShardCall.rem src member
              else ShardCall.add src member false] = _
      rw [if_pos rfl]
    · show [if dest = src then ShardCall.rem dest member
              else ShardCall.add dest member false] = _
      rw [if_neg (fun h => hne h.symm)]

theorem c2_witness :
    moverCommit (.err .WRONG_TYPE) (.err .OK) false = (.err .WRONG_TYPE, .noop) ∧
    moverCommit (.ok false) (.err .KEY_NOTFOUND) false = (.ok 0, .noop) ∧
    moverCommit (.ok true) (.err .OK) false = (.ok 1, if false then .noop else .move) ∧
    (opMutateCalls ["s"] "s" "m" = [.rem "s" "m"] ∧
     opMutateCalls ["d"] "s" "m" = [.add "d" "m" false]) :=
  ⟨c2_mover_commit.1 (.err .WRONG_TYPE) (.err .OK) false (Or.inl rfl),
   c2_mover_commit.2.1 (.ok false) (.err .KEY_NOTFOUND) false (by decide) (by decide) rfl,
   c2_mover_commit.2.2.1 (.ok true) (.err .OK) false (by decide) (by decide) rfl,
   c2_mover_commit.2.2.2 "s" "d" "m" (by decide)⟩

/-- C3: the claim requires the SMOVE find hop to run without violating its internal
assertion even when src and dest land on the same shard, where the routed slice holds
both keys; the code's DCHECK demands fewer than two keys, so it is violated on exactly
that input — even though the recording loop itself would produce the correct
found entries for both keys, as shown by the second conjunct. -/
theorem c3_opfind_assert_violated :
    opFindSizeCheck ["a", "b"] = false ∧
    opFindRecord "a" "m" lkMove ["a", "b"] = (.ok true, .err .KEY_NOTFOUND) := by
  constructor
  · decide
  · decide

/-- C9: every multi-hop set command terminates with a concluding hop: the store
variants run the concluding no-op when the combiner fails and the concluding store
hop otherwise, and SMOVE's commit hop is always concluding, degenerating to the no-op
whenever an error was discovered between the hops. -/
theorem c9_concluding_hops :
    (∀ b : Bool, (sDiffStoreHops b).getLast? = some ⟨true, b⟩) ∧
    (∀ b : Bool, (sInterStoreHops b).getLast? = some ⟨true, b⟩) ∧
    (∀ b : Bool, (sUnionStoreHops b).getLast? = some ⟨true, b⟩) ∧
    (∀ (f0 f1 : OpRes Bool) (sd : Bool),
      (sMoveHops f0 f1 sd).getLast? = some ⟨true, (moverCommit f0 f1 sd).2.isNoop⟩) ∧
    (∀ (f0 f1 : OpRes Bool) (sd : Bool),
      (moverCommit f0 f1 sd).1.status ≠ .OK →
      (sMoveHops f0 f1 sd).getLast? = some ⟨true, true⟩) := by
  refine ⟨fun b => rfl, fun b => rfl, fun b => rfl, fun f0 f1 sd => rfl, ?_⟩
  intro f0 f1 sd h
  by_cases hw : f0.status = .WRONG_TYPE ∨ f1.status = .WRONG_TYPE
  · have hc : moverCommit f0 f1 sd = (.err .WRONG_TYPE, .noop) := by
      unfold moverCommit
      rw [if_pos hw]
    unfold sMoveHops
    rw [hc]
    rfl
  · exfalso
    apply h
    unfold moverCommit
    rw [if_neg hw]
    by_cases hv : f0.valueOr false = false
    · rw [if_pos hv]
      rfl
    · rw [if_neg hv]
      rfl

theorem c9_witness :
    (sDiffStoreHops true).getLast? = some ⟨true, true⟩ ∧
    (sInterStoreHops true).getLast? = some ⟨true, true⟩ ∧
    (sUnionStoreHops true).getLast? = some ⟨true, true⟩ ∧
    (sMoveHops (.ok true) (.err .OK) false).getLast? =
      some ⟨true, (moverCommit (.ok true) (.err .OK) false).2.isNoop⟩ ∧
    (sMoveHops (.err .WRONG_TYPE) (.err .OK) false).getLast? = some ⟨true, true⟩ :=
  ⟨c9_concluding_hops.1 true, c9_concluding_hops.2.1 true, c9_concluding_hops.2.2.1 true,
   c9_concluding_hops.2.2.2.1 (.ok true) (.err .OK) false,
   c9_concluding_hops.2.2.2.2 (.err .WRONG_TYPE) (.err .OK) false (by decide)⟩

/-- C4: contrary to the claim, OpDiff ignores the subtrahend keys and the source
members entirely: its collection and subtraction loop is compiled out behind an if-0
block, so with a holding the set of 1, 2, 3 and b holding the set of 2, 3, 4 routed to
one shard it returns the empty list instead of the list holding the string 1. -/
theorem c4_opdiff_stub :
    OpDiff lkDiff ["a", "b"] = .ok [] ∧
    OpRes.ok ([] : List String) ≠ .ok ["1"] := by
  constructor
  · decide
  · decide

/-- C8: contrary to the claim, SISMEMBER on an existing key holding a non-set value
replies with the integer 0: the callback surfaces WRONG_TYPE, but the reply switch
maps every status other than OK — including WRONG_TYPE — to SendLong(0), so no
client-visible WRONGTYPE error is produced. -/
theorem c8_sismember_wrongtype_reply :
    sIsMemberStatus (some Value.other) "m" = .WRONG_TYPE ∧
    sIsMemberReply .WRONG_TYPE = .long 0 ∧
    ∀ msg, sIsMemberReply (sIsMemberStatus (some Value.other) "m") ≠ .err msg := by
  refine ⟨rfl, rfl, ?_⟩
  intro msg h
  exact Reply.noConfusion h

/-! Claims about OpPop. -/

theorem OpPop_set_eq (sv : SetVal) (count : Nat) :
    OpPop (some (.set sv)) count =
      if count = 0 then (.ok [], some (.set sv))
      else if sv.size ≤ count then (.ok sv.members, none)
      else
        match sv with
        | .intset l =>
          (.ok ((l.drop (l.length - count)).map i2s),
           some (.set (.intset (l.take (l.length - count)))))
        | .flat fs => (.ok (fs.take count), some (.set (.flat (fs.drop count)))) := rfl

/-- C6: OpPop on an existing set returns nothing and leaves the set unchanged for
count 0; returns every member and deletes the key when the count reaches the
cardinality; and otherwise, on an IntSet, returns exactly the last count members — the
largest values, in ascending order — and removes them by trimming the tail, each
returned member removed exactly once, leaving size minus count members. -/
theorem c6_oppop :
    (∀ sv : SetVal, OpPop (some (.set sv)) 0 = (.ok [], some (.set sv))) ∧
    (∀ (sv : SetVal) (count : Nat), 0 < count → sv.size ≤ count →
      OpPop (some (.set sv)) count = (.ok sv.members, none)) ∧
    (∀ (l : List Int) (count : Nat), l.Sorted (· < ·) → 0 < count → count < l.length →
      OpPop (some (.set (.intset l))) count =
        (.ok ((l.drop (l.length - count)).map i2s),
         some (.set (.intset (l.take (l.length - count))))) ∧
      (l.take (l.length - count)).length = l.length - count ∧
      (l.drop (l.length - count)).length = count ∧
      l.take (l.length - count) ++ l.drop (l.length - count) = l ∧
      List.Sorted (· < ·) (l.drop (l.length - count)) ∧
      (∀ x ∈ l.take (l.length - count), ∀ y ∈ l.drop (l.length - count), x < y)) := by
  refine ⟨?_, ?_, ?_⟩
  · intro sv
    rw [OpPop_set_eq]
    rw [if_pos rfl]
  · intro sv count hpos hle
    rw [OpPop_set_eq]
    rw [if_neg (by omega), if_pos hle]
  · intro l count hs hpos hlt
    have hsz : (SetVal.intset l).size = l.length := rfl
    refine ⟨?_, ?_, ?_, List.take_append_drop _ l, ?_, ?_⟩
    · rw [OpPop_set_eq]
      rw [if_neg (by omega), if_neg (by rw [hsz]; omega)]
    · rw [List.length_take]
      omega
    · rw [List.length_drop]
      omega
    · exact List.Pairwise.sublist (List.drop_sublist _ _) hs
    · have hp := List.pairwise_append.mp
        (by rw [List.take_append_drop]; exact hs : ((l.take (l.length - count) ++
          l.drop (l.length - count)).Pairwise (· < ·)))
      exact hp.2.2

/-! Claims about the intersection combiner InterResultVec. -/

theorem interCore_skip (req : Nat) (rest : List (OpRes (List String))) (first : Bool)
    (counts : List (String × Nat)) :
    interCore req (.err .SKIPPED :: rest) first counts = interCore req rest first counts := rfl

theorem interCore_notfound (req : Nat) (rest : List (OpRes (List String))) (first : Bool)
    (counts : List (String × Nat)) :
    interCore req (.err .KEY_NOTFOUND :: rest) first counts = .ok [] := rfl

theorem interCore_ok_step (req : Nat) (lst : List String)
    (rest : List (OpRes (List String))) (first : Bool) (counts : List (String × Nat)) :
    interCore req (.ok lst :: rest) first counts =
      if first then interCore req rest false (lst.foldl addFirst counts)
      else interCore req rest false (lst.foldl bumpCounts counts) := rfl

theorem interCore_err_step (req : Nat) (st : OpStatus)
    (rest : List (OpRes (List String))) (first : Bool) (counts : List (String × Nat))
    (h1 : st ≠ .SKIPPED) (h2 : st ≠ .KEY_NOTFOUND) :
    interCore req (.err st :: rest) first counts = .err st := by
  conv_lhs => unfold interCore
  show (if st = OpStatus.SKIPPED then interCore req rest first counts
    else if st = OpStatus.KEY_NOTFOUND then OpRes.ok []
    else OpRes.err st) = OpRes.err st
  rw [if_neg h1, if_neg h2]

theorem interCore_reaches_err (req : Nat) (st : OpStatus) (h1 : st ≠ .SKIPPED) :
    ∀ (pre : List (OpRes (List String))) (rest : List (OpRes (List String)))
      (first : Bool) (counts : List (String × Nat)),
    (∀ r ∈ pre, r = .err .SKIPPED ∨ ∃ lst, r = .ok lst) →
    interCore req (pre ++ .err st :: rest) first counts =
      if st = .KEY_NOTFOUND then .ok [] else .err st := by
  intro pre
  induction pre with
  | nil =>
    intro rest first counts _
    by_cases h2 : st = .KEY_NOTFOUND
    · subst h2
      rw [if_pos rfl]
      exact interCore_notfound req rest first counts
    · rw [if_neg h2]
      exact interCore_err_step req st rest first counts h1 h2
  | cons r pre ih =>
    intro rest first counts hpre
    rcases hpre r (List.mem_cons_self r pre) with hr | ⟨lst, hr⟩
    · subst hr
      show interCore req (.err .SKIPPED :: (pre ++ .err st :: rest)) first counts = _
      rw [interCore_skip]
      exact ih rest first counts (fun r hr => hpre r (List.mem_cons_of_mem _ hr))
    · subst hr
      show interCore req (.ok lst :: (pre ++ .err st :: rest)) first counts = _
      rw [interCore_ok_step]
      have hrest : ∀ r ∈ pre, r = .err .SKIPPED ∨ ∃ lst, r = .ok lst :=
        fun r hr => hpre r (List.mem_cons_of_mem _ hr)
      cases first with
      | false =>
        show interCore req (pre ++ .err st :: rest) false (lst.foldl bumpCounts counts) = _
        exact ih rest false _ hrest
      | true =>
        show interCore req (pre ++ .err st :: rest) false (lst.foldl addFirst counts) = _
        exact ih rest false _ hrest

theorem foldl_bumpCounts (lst : List String) :
    ∀ counts : List (String × Nat), lst.Nodup →
    lst.foldl bumpCounts counts =
      counts.map (fun p => (p.1, p.2 + if p.1 ∈ lst then 1 else 0)) := by
  induction lst with
  | nil =>
    intro counts _
    show counts = _
    have h0 : (fun p : String × Nat => (p.1, p.2 + if p.1 ∈ ([] : List String) then 1 else 0)) =
        fun p : String × Nat => p := by
      funext p
      rw [if_neg (List.not_mem_nil p.1)]
      rfl
    rw [h0, List.map_id']
  | cons s lst ih =>
    intro counts hn
    rw [List.nodup_cons] at hn
    show lst.foldl bumpCounts (bumpCounts counts s) = _
    rw [ih (bumpCounts counts s) hn.2]
    unfold bumpCounts
    rw [List.map_map]
    have hfun : ((fun p : String × Nat => (p.1, p.2 + if p.1 ∈ lst then 1 else 0)) ∘
          (fun p : String × Nat => if p.1 = s then (p.1, p.2 + 1) else p)) =
        fun p : String × Nat => (p.1, p.2 + if p.1 ∈ s :: lst then 1 else 0) := by
      funext p
      rw [Function.comp_apply]
      by_cases hps : p.1 = s
      · rw [if_pos hps]
        have hns : p.1 ∉ lst := hps ▸ hn.1
        rw [if_neg hns, if_pos (hps ▸ List.mem_cons_self s lst)]
      · rw [if_neg hps]
        by_cases hpl : p.1 ∈ lst
        · rw [if_pos hpl, if_pos (List.mem_cons_of_mem s hpl)]
        · rw [if_neg hpl, if_neg (by rw [List.mem_cons]; tauto)]
    rw [hfun]

theorem foldl_addFirst (lst : List String) :
    ∀ counts : List (String × Nat), lst.Nodup →
    (∀ s ∈ lst, ∀ p ∈ counts, p.1 ≠ s) →
    lst.foldl addFirst counts = counts ++ lst.map (fun s => (s, 1)) := by
  induction lst with
  | nil =>
    intro counts _ _
    show counts = counts ++ []
    rw [List.append_nil]
  | cons s lst ih =>
    intro counts hn hd
    rw [List.nodup_cons] at hn
    show lst.foldl addFirst (addFirst counts s) = _
    have hadd : addFirst counts s = counts ++ [(s, 1)] := by
      unfold addFirst
      have hany : ¬(counts.any (fun p => p.1 == s) = true) := by
        rw [List.any_eq_true]
        rintro ⟨p, hp, hps⟩
        exact hd s (List.mem_cons_self s lst) p hp (by simpa using hps)
      rw [if_neg hany]
    rw [hadd]
    have hd' : ∀ t ∈ lst, ∀ p ∈ counts ++ [(s, 1)], p.1 ≠ t := by
      intro t ht p hp
      rcases List.mem_append.mp hp with h | h
      · exact hd t (List.mem_cons_of_mem s ht) p h
      · rw [List.mem_singleton.mp h]
        intro he
        have he' : s = t := he
        exact hn.1 (he' ▸ ht)
    rw [ih (counts ++ [(s, 1)]) hn.2 hd', List.append_assoc]
    rfl

theorem interCore_ok_phase (req : Nat) :
    ∀ (vec : List (OpRes (List String))) (counts : List (String × Nat)),
    (∀ r ∈ vec, r = .err .SKIPPED ∨ ∃ lst, r = .ok lst ∧ lst.Nodup) →
    interCore req vec false counts =
      .ok (((counts.map (fun p =>
        (p.1, p.2 + ((contribLists vec).filter (fun l2 => decide (p.1 ∈ l2))).length))).filter
          (fun p => p.2 == req)).map Prod.fst) := by
  intro vec
  induction vec with
  | nil =>
    intro counts _
    show OpRes.ok ((counts.filter (fun p => p.2 == req)).map Prod.fst) = _
    have h0 : counts.map (fun p : String × Nat =>
        (p.1, p.2 + ((contribLists []).filter (fun l2 => decide (p.1 ∈ l2))).length)) =
        counts := by
      have h1 : (fun p : String × Nat =>
          (p.1, p.2 + ((contribLists []).filter (fun l2 => decide (p.1 ∈ l2))).length)) =
          fun p : String × Nat => p := by
        funext p
        show (p.1, p.2 + 0) = p
        rfl
      rw [h1, List.map_id']
    rw [h0]
  | cons r rest ih =>
    intro counts hvec
    have hrest : ∀ r ∈ rest, r = .err .SKIPPED ∨ ∃ lst, r = .ok lst ∧ lst.Nodup :=
      fun r hr => hvec r (List.mem_cons_of_mem _ hr)
    rcases hvec r (List.mem_cons_self r rest) with hr | ⟨lst, hr, hnodup⟩
    · subst hr
      rw [interCore_skip]
      rw [ih counts hrest]
      rfl
    · subst hr
      rw [interCore_ok_step]
      show interCore req rest false (lst.foldl bumpCounts counts) = _
      rw [foldl_bumpCounts lst counts hnodup]
      rw [ih _ hrest]
      congr 1
      rw [List.map_map]
      have hfun : ((fun p : String × Nat =>
            (p.1, p.2 + ((contribLists rest).filter (fun l2 => decide (p.1 ∈ l2))).length)) ∘
          (fun p : String × Nat => (p.1, p.2 + if p.1 ∈ lst then 1 else 0))) =
          fun p : String × Nat =>
            (p.1, p.2 + ((contribLists (.ok lst :: rest)).filter
              (fun l2 => decide (p.1 ∈ l2))).length) := by
        funext p
        rw [Function.comp_apply]
        show (p.1, p.2 + (if p.1 ∈ lst then 1 else 0) +
            ((contribLists rest).filter (fun l2 => decide (p.1 ∈ l2))).length) = _
        have hcons : contribLists (.ok lst :: rest) = lst :: contribLists rest := rfl
        rw [hcons]
        by_cases hpl : p.1 ∈ lst
        · rw [if_pos hpl]
          have hfc : (lst :: contribLists rest).filter (fun l2 => decide (p.1 ∈ l2)) =
              lst :: (contribLists rest).filter (fun l2 => decide (p.1 ∈ l2)) := by
            rw [List.filter_cons, if_pos (decide_eq_true hpl)]
          rw [hfc, List.length_cons]
          congr 1
          omega
        · rw [if_neg hpl]
          have hfc : (lst :: contribLists rest).filter (fun l2 => decide (p.1 ∈ l2)) =
              (contribLists rest).filter (fun l2 => decide (p.1 ∈ l2)) := by
            rw [List.filter_cons, if_neg (by rw [decide_eq_false hpl]; simp)]
          rw [hfc]
          rfl
      rw [hfun]

theorem interCore_first_phase (req : Nat) :
    ∀ (vec : List (OpRes (List String))),
    (∀ r ∈ vec, r = .err .SKIPPED ∨ ∃ lst, r = .ok lst ∧ lst.Nodup) →
    interCore req vec true [] =
      .ok (match contribLists vec with
           | [] => []
           | L0 :: Ls =>
             L0.filter (fun s => (1 + (Ls.filter (fun l2 => decide (s ∈ l2))).length) == req)) := by
  intro vec
  induction vec with
  | nil => intro _; rfl
  | cons r rest ih =>
    intro hvec
    have hrest : ∀ r ∈ rest, r = .err .SKIPPED ∨ ∃ lst, r = .ok lst ∧ lst.Nodup :=
      fun r hr => hvec r (List.mem_cons_of_mem _ hr)
    rcases hvec r (List.mem_cons_self r rest) with hr | ⟨L0, hr, hnodup⟩
    · subst hr
      rw [interCore_skip]
      rw [ih hrest]
      rfl
    · subst hr
      rw [interCore_ok_step]
      show interCore req rest false (L0.foldl addFirst []) = _
      rw [foldl_addFirst L0 [] hnodup (fun s _ p hp => absurd hp (List.not_mem_nil p))]
      rw [List.nil_append]
      rw [interCore_ok_phase req rest (L0.map (fun s => (s, 1))) hrest]
      congr 1
      rw [List.map_map, List.filter_map, List.map_map]
      show (L0.filter (fun s =>
          (1 + ((contribLists rest).filter (fun l2 => decide (s ∈ l2))).length) == req)).map
            (fun s => s) = _
      rw [List.map_id']
      rfl

/-- C5 (amended): scanning the per-shard results in shard order and ignoring SKIPPED
entries, the first shard whose status is neither OK nor SKIPPED decides the result —
an empty array for KEY_NOTFOUND and the propagated status for any other error — and
when every non-SKIPPED shard contributed an OK duplicate-free list, the output is
exactly those members of the first contribution that occur in a number of
contributing shards equal to required_shard_cnt. -/
theorem c5_inter_result_vec :
    (∀ (pre rest : List (OpRes (List String))) (req : Nat),
      (∀ r ∈ pre, r = .err .SKIPPED ∨ ∃ lst, r = .ok lst) →
      InterResultVec (pre ++ .err .KEY_NOTFOUND :: rest) req = .ok []) ∧
    (∀ (pre rest : List (OpRes (List String))) (req : Nat) (st : OpStatus),
      st ≠ .SKIPPED → st ≠ .KEY_NOTFOUND →
      (∀ r ∈ pre, r = .err .SKIPPED ∨ ∃ lst, r = .ok lst) →
      InterResultVec (pre ++ .err st :: rest) req = .err st) ∧
    (∀ (vec : List (OpRes (List String))) (req : Nat),
      (∀ r ∈ vec, r = .err .SKIPPED ∨ ∃ lst, r = .ok lst ∧ lst.Nodup) →
      InterResultVec vec req =
        .ok (match contribLists vec with
             | [] => []
             | L0 :: Ls =>
               L0.filter (fun s =>
                 (1 + (Ls.filter (fun l2 => decide (s ∈ l2))).length) == req))) := by
  refine ⟨?_, ?_, ?_⟩
  · intro pre rest req hpre
    have h := interCore_reaches_err req .KEY_NOTFOUND (by decide) pre rest true [] hpre
    rw [if_pos rfl] at h
    exact h
  · intro pre rest req st h1 h2 hpre
    have h := interCore_reaches_err req st h1 pre rest true [] hpre
    rw [if_neg h2] at h
    exact h
  · intro vec req hvec
    exact interCore_first_phase req vec hvec

/-- C5 counterexample: a WRONG_TYPE shard scanned before a KEY_NOTFOUND shard makes
InterResultVec propagate WRONG_TYPE, not return the empty array the claim demands. -/
theorem c5_counterexample :
    InterResultVec [.err .WRONG_TYPE, .err .KEY_NOTFOUND] 1 = .err .WRONG_TYPE ∧
    (OpRes.err .WRONG_TYPE : OpRes (List String)) ≠ .ok [] := by
  constructor
  · decide
  · decide

theorem c5_witness :
    InterResultVec ([.ok ["a"]] ++ .err .KEY_NOTFOUND :: []) 1 = .ok [] ∧
    InterResultVec ([] ++ .err .WRONG_TYPE :: [.err .KEY_NOTFOUND]) 1 = .err .WRONG_TYPE ∧
    InterResultVec [.ok ["a", "b"], .err .SKIPPED, .ok ["b"]] 2 =
      .ok (match contribLists [.ok ["a", "b"], .err .SKIPPED, .ok ["b"]] with
           | [] => []
           | L0 :: Ls =>
             L0.filter (fun s =>
               (1 + (Ls.filter (fun l2 => decide (s ∈ l2))).length) == 2)) :=
  ⟨c5_inter_result_vec.1 [.ok ["a"]] [] 1
    (by
      intro r hr
      rw [List.mem_singleton] at hr
      subst hr
      exact Or.inr ⟨["a"], rfl⟩),
   c5_inter_result_vec.2.1 [] [.err .KEY_NOTFOUND] 1 .WRONG_TYPE (by decide) (by decide)
    (fun r hr => absurd hr (List.not_mem_nil r)),
   c5_inter_result_vec.2.2 [.ok ["a", "b"], .err .SKIPPED, .ok ["b"]] 2
    (by
      intro r hr
      simp only [List.mem_cons, List.not_mem_nil, or_false] at hr
      rcases hr with rfl | rfl | rfl
      · exact Or.inr ⟨["a", "b"], rfl, by decide⟩
      · exact Or.inl rfl
      · exact Or.inr ⟨["b"], rfl, by decide⟩)⟩

/-! Claims about OpRem. -/

theorem remIntLoop_none_step (v : String) (rest : List String) (l : List Int)
    (removed : Nat) (h : string2ll v = none) :
    remIntLoop (v :: rest) l removed = remIntLoop rest l removed := by
  conv_lhs => unfold remIntLoop
  rw [h]

theorem remIntLoop_some_step (v : String) (rest : List String) (l : List Int)
    (removed : Nat) (x : Int) (h : string2ll v = some x) :
    remIntLoop (v :: rest) l removed =
      remIntLoop rest (intsetRemove l x).1
        (removed + if (intsetRemove l x).2 then 1 else 0) := by
  conv_lhs => unfold remIntLoop
  rw [h]

theorem intsetRemove_mem (l : List Int) (x : Int) (h : x ∈ l) :
    intsetRemove l x = (l.erase x, true) := by
  unfold intsetRemove
  rw [if_pos h]

theorem intsetRemove_not_mem (l : List Int) (x : Int) (h : x ∉ l) :
    intsetRemove l x = (l, false) := by
  unfold intsetRemove
  rw [if_neg h]

theorem remIntLoop_spec : ∀ (vals : List String) (l : List Int) (removed : Nat),
    l.Nodup → (∀ x ∈ l, inRange x) →
    (remIntLoop vals l removed).1 = l.filter (fun x => decide (i2s x ∉ vals)) ∧
    (remIntLoop vals l removed).2 + (remIntLoop vals l removed).1.length =
      removed + l.length := by
  intro vals
  induction vals with
  | nil =>
    intro l removed hn hr
    constructor
    · show l = l.filter (fun x => decide (i2s x ∉ ([] : List String)))
      rw [List.filter_eq_self.mpr]
      intro x hx
      exact decide_eq_true (List.not_mem_nil (i2s x))
    · show removed + l.length = removed + l.length
      rfl
  | cons v rest ih =>
    intro l removed hn hr
    rcases hp : string2ll v with _ | x
    · rw [remIntLoop_none_step v rest l removed hp]
      obtain ⟨h1, h2⟩ := ih l removed hn hr
      have hflt : l.filter (fun x => decide (i2s x ∉ rest)) =
          l.filter (fun x => decide (i2s x ∉ v :: rest)) := by
        apply List.filter_congr
        intro y hy
        rw [decide_eq_decide]
        have hne : i2s y ≠ v := by
          intro he
          rw [← he, string2ll_i2s y (hr y hy)] at hp
          exact Option.noConfusion hp
        simp [List.mem_cons, hne]
      rw [hflt] at h1
      exact ⟨h1, h2⟩
    · have hcanon := string2ll_canon v x hp
      by_cases hm : x ∈ l
      · have hred : remIntLoop (v :: rest) l removed =
            remIntLoop rest (l.erase x) (removed + 1) := by
          rw [remIntLoop_some_step v rest l removed x hp, intsetRemove_mem l x hm]
          rfl
        rw [hred]
        obtain ⟨h1, h2⟩ := ih (l.erase x) (removed + 1) (hn.erase x)
          (fun y hy => hr y (List.mem_of_mem_erase hy))
        have hflt : (l.erase x).filter (fun y => decide (i2s y ∉ rest)) =
            l.filter (fun y => decide (i2s y ∉ v :: rest)) := by
          rw [hn.erase_eq_filter x, List.filter_filter]
          apply List.filter_congr
          intro y hy
          have hyx : i2s y = v ↔ y = x := by
            constructor
            · intro he
              exact i2s_inj (he.trans hcanon.1.symm)
            · intro he
              rw [he, hcanon.1]
          rw [Bool.eq_iff_iff]
          simp only [Bool.and_eq_true, decide_eq_true_eq, bne_iff_ne, List.mem_cons,
            not_or]
          tauto
        rw [hflt] at h1
        refine ⟨h1, ?_⟩
        have hlen : (l.erase x).length = l.length - 1 := List.length_erase_of_mem hm
        have hpos : 0 < l.length := List.length_pos_of_mem hm
        omega
      · have hred : remIntLoop (v :: rest) l removed = remIntLoop rest l removed := by
          rw [remIntLoop_some_step v rest l removed x hp, intsetRemove_not_mem l x hm]
          rfl
        rw [hred]
        obtain ⟨h1, h2⟩ := ih l removed hn hr
        have hflt : l.filter (fun y => decide (i2s y ∉ rest)) =
            l.filter (fun y => decide (i2s y ∉ v :: rest)) := by
          apply List.filter_congr
          intro y hy
          rw [decide_eq_decide]
          have hne : i2s y ≠ v := by
            intro he
            have : y = x := i2s_inj (he.trans hcanon.1.symm)
            exact hm (this ▸ hy)
          simp [List.mem_cons, hne]
        rw [hflt] at h1
        exact ⟨h1, h2⟩

theorem remFlatLoop_step (v : String) (rest fs : List String) (removed : Nat) :
    remFlatLoop (v :: rest) fs removed =
      remFlatLoop rest (fsRemove fs v).1
        (removed + if (fsRemove fs v).2 then 1 else 0) := rfl

theorem fsRemove_mem (fs : List String) (v : String) (h : v ∈ fs) :
    fsRemove fs v = (fs.erase v, true) := by
  unfold fsRemove
  rw [if_pos h]

theorem fsRemove_not_mem (fs : List String) (v : String) (h : v ∉ fs) :
    fsRemove fs v = (fs, false) := by
  unfold fsRemove
  rw [if_neg h]

theorem remFlatLoop_spec : ∀ (vals fs : List String) (removed : Nat), fs.Nodup →
    (remFlatLoop vals fs removed).1 = fs.filter (fun y => decide (y ∉ vals)) ∧
    (remFlatLoop vals fs removed).2 + (remFlatLoop vals fs removed).1.length =
      removed + fs.length := by
  intro vals
  induction vals with
  | nil =>
    intro fs removed hn
    constructor
    · show fs = fs.filter (fun y => decide (y ∉ ([] : List String)))
      rw [List.filter_eq_self.mpr]
      intro y hy
      exact decide_eq_true (List.not_mem_nil y)
    · show removed + fs.length = removed + fs.length
      rfl
  | cons v rest ih =>
    intro fs removed hn
    by_cases hm : v ∈ fs
    · have hred : remFlatLoop (v :: rest) fs removed =
          remFlatLoop rest (fs.erase v) (removed + 1) := by
        rw [remFlatLoop_step, fsRemove_mem fs v hm]
        rfl
      rw [hred]
      obtain ⟨h1, h2⟩ := ih (fs.erase v) (removed + 1) (hn.erase v)
      have hflt : (fs.erase v).filter (fun y => decide (y ∉ rest)) =
          fs.filter (fun y => decide (y ∉ v :: rest)) := by
        rw [hn.erase_eq_filter v, List.filter_filter]
        apply List.filter_congr
        intro y hy
        rw [Bool.eq_iff_iff]
        simp only [Bool.and_eq_true, decide_eq_true_eq, bne_iff_ne, List.mem_cons,
          not_or]
        tauto
      rw [hflt] at h1
      refine ⟨h1, ?_⟩
      have hlen : (fs.erase v).length = fs.length - 1 := List.length_erase_of_mem hm
      have hpos : 0 < fs.length := List.length_pos_of_mem hm
      omega
    · have hred : remFlatLoop (v :: rest) fs removed = remFlatLoop rest fs removed := by
        rw [remFlatLoop_step, fsRemove_not_mem fs v hm]
        rfl
      rw [hred]
      obtain ⟨h1, h2⟩ := ih fs removed hn
      have hflt : fs.filter (fun y => decide (y ∉ rest)) =
          fs.filter (fun y => decide (y ∉ v :: rest)) := by
        apply List.filter_congr
        intro y hy
        rw [decide_eq_decide]
        have hne : y ≠ v := fun he => hm (he ▸ hy)
        simp [List.mem_cons, hne]
      rw [hflt] at h1
      exact ⟨h1, h2⟩

theorem OpRem_intset_eq (l : List Int) (vals : List String) :
    OpRem (some (.set (.intset l))) vals =
      if (remIntLoop vals l 0).1.isEmpty then (.ok (remIntLoop vals l 0).2, none)
      else (.ok (remIntLoop vals l 0).2,
            some (.set (.intset (remIntLoop vals l 0).1))) := rfl

theorem OpRem_flat_eq (fs : List String) (vals : List String) :
    OpRem (some (.set (.flat fs))) vals =
      if (remFlatLoop vals fs 0).1.isEmpty then (.ok (remFlatLoop vals fs 0).2, none)
      else (.ok (remFlatLoop vals fs 0).2,
            some (.set (.flat (remFlatLoop vals fs 0).1))) := rfl

/-- C7: OpRem on an existing set-typed key removes exactly the members matching the
values — values that do not parse as integers remove nothing from an IntSet — returns
the number of members actually removed, and leaves the key in the dictionary if and
only if the remaining set is non-empty (removing the last member deletes the key). -/
theorem c7_oprem :
    (∀ (l : List Int) (vals : List String),
      l.Sorted (· < ·) → (∀ x ∈ l, inRange x) →
      OpRem (some (.set (.intset l))) vals =
        if (l.filter (fun x => decide (i2s x ∉ vals))).isEmpty then
          (.ok (l.length - (l.filter (fun x => decide (i2s x ∉ vals))).length), none)
        else
          (.ok (l.length - (l.filter (fun x => decide (i2s x ∉ vals))).length),
           some (.set (.intset (l.filter (fun x => decide (i2s x ∉ vals))))))) ∧
    (∀ (fs vals : List String), fs.Nodup →
      OpRem (some (.set (.flat fs))) vals =
        if (fs.filter (fun y => decide (y ∉ vals))).isEmpty then
          (.ok (fs.length - (fs.filter (fun y => decide (y ∉ vals))).length), none)
        else
          (.ok (fs.length - (fs.filter (fun y => decide (y ∉ vals))).length),
           some (.set (.flat (fs.filter (fun y => decide (y ∉ vals))))))) := by
  constructor
  · intro l vals hs hr
    obtain ⟨h1, h2⟩ := remIntLoop_spec vals l 0 (sorted_nodup l hs) hr
    have hflen : (l.filter (fun x => decide (i2s x ∉ vals))).length ≤ l.length :=
      List.length_filter_le _ l
    have hcnt : (remIntLoop vals l 0).2 =
        l.length - (l.filter (fun x => decide (i2s x ∉ vals))).length := by
      rw [h1] at h2
      omega
    rw [OpRem_intset_eq, h1, hcnt]
  · intro fs vals hn
    obtain ⟨h1, h2⟩ := remFlatLoop_spec vals fs 0 hn
    have hflen : (fs.filter (fun y => decide (y ∉ vals))).length ≤ fs.length :=
      List.length_filter_le _ fs
    have hcnt : (remFlatLoop vals fs 0).2 =
        fs.length - (fs.filter (fun y => decide (y ∉ vals))).length := by
      rw [h1] at h2
      omega
    rw [OpRem_flat_eq, h1, hcnt]

theorem c7_witness :
    OpRem (some (.set (.intset [1, 2, 3]))) ["2", "9", "x"] =
      (if (([1, 2, 3] : List Int).filter
            (fun x => decide (i2s x ∉ ["2", "9", "x"]))).isEmpty then
        (.ok (([1, 2, 3] : List Int).length - (([1, 2, 3] : List Int).filter
            (fun x => decide (i2s x ∉ ["2", "9", "x"]))).length), none)
      else
        (.ok (([1, 2, 3] : List Int).length - (([1, 2, 3] : List Int).filter
            (fun x => decide (i2s x ∉ ["2", "9", "x"]))).length),
         some (.set (.intset (([1, 2, 3] : List Int).filter
            (fun x => decide (i2s x ∉ ["2", "9", "x"]))))))) ∧
    OpRem (some (.set (.flat ["a", "b"]))) ["a", "b"] =
      (if ((["a", "b"] : List String).filter
            (fun y => decide (y ∉ ["a", "b"]))).isEmpty then
        (.ok ((["a", "b"] : List String).length - ((["a", "b"] : List String).filter
            (fun y => decide (y ∉ ["a", "b"]))).length), none)
      else
        (.ok ((["a", "b"] : List String).length - ((["a", "b"] : List String).filter
            (fun y => decide (y ∉ ["a", "b"]))).length),
         some (.set (.flat ((["a", "b"] : List String).filter
            (fun y => decide (y ∉ ["a", "b"]))))))) :=
  ⟨c7_oprem.1 [1, 2, 3] ["2", "9", "x"] (by decide) (by decide),
   c7_oprem.2 ["a", "b"] ["a", "b"] (by decide)⟩

theorem c6_witness :
    OpPop (some (.set (.intset [1, 2, 3]))) 0 = (.ok [], some (.set (.intset [1, 2, 3]))) ∧
    OpPop (some (.set (.intset [1, 2, 3]))) 5 =
      (.ok (SetVal.intset [1, 2, 3]).members, none) ∧
    (OpPop (some (.set (.intset [1, 2, 3, 4, 5]))) 2 =
      (.ok (([1, 2, 3, 4, 5] : List Int).drop (([1, 2, 3, 4, 5] : List Int).length - 2) |>.map i2s),
       some (.set (.intset (([1, 2, 3, 4, 5] : List Int).take
         (([1, 2, 3, 4, 5] : List Int).length - 2))))) ∧
      (([1, 2, 3, 4, 5] : List Int).take (([1, 2, 3, 4, 5] : List Int).length - 2)).length =
        ([1, 2, 3, 4, 5] : List Int).length - 2 ∧
      (([1, 2, 3, 4, 5] : List Int).drop (([1, 2, 3, 4, 5] : List Int).length - 2)).length = 2 ∧
      ([1, 2, 3, 4, 5] : List Int).take (([1, 2, 3, 4, 5] : List Int).length - 2) ++
        ([1, 2, 3, 4, 5] : List Int).drop (([1, 2, 3, 4, 5] : List Int).length - 2) =
        [1, 2, 3, 4, 5] ∧
      List.Sorted (· < ·)
        (([1, 2, 3, 4, 5] : List Int).drop (([1, 2, 3, 4, 5] : List Int).length - 2)) ∧
      (∀ x ∈ ([1, 2, 3, 4, 5] : List Int).take (([1, 2, 3, 4, 5] : List Int).length - 2),
        ∀ y ∈ ([1, 2, 3, 4, 5] : List Int).drop (([1, 2, 3, 4, 5] : List Int).length - 2),
        x < y)) :=
  ⟨c6_oppop.1 (.intset [1, 2, 3]),
   c6_oppop.2.1 (.intset [1, 2, 3]) 5 (by decide) (by decide),
   c6_oppop.2.2 [1, 2, 3, 4, 5] 2 (by decide) (by decide) (by decide)⟩

end DflySet
